import Mathlib

/-!
Shallow embedding of the catalog-parser pipeline
(`catalog_parser/generator.py`, `catalog_parser/adapter.py`,
`catalog_parser/adapter_policy.py`) and proofs about its specification.

Python dicts are modelled as association lists that preserve insertion
order; optional dict keys become `Option` fields (with `none` meaning the
key is absent); functions that raise become `Except`-valued functions.
-/

namespace CatalogPipeline

/-- One entry of a catalog package's `Sources` list: a dict with the
optional keys `Architecture`, `RepoName` and `Uri` (absent key = `none`). -/
structure SourceRec where
  Architecture : Option String := none
  RepoName : Option String := none
  Uri : Option String := none
deriving DecidableEq, Repr

/-- `generator.Package` (the dataclass used inside generated FeatureLists):
`uri`/`tag` are `Optional[str]`, `sources` is `Optional[List[dict]]`. -/
structure Package where
  package : String
  type : String
  repo_name : String
  architecture : List String
  uri : Option String := none
  tag : Option String := none
  sources : Option (List SourceRec) := none
deriving DecidableEq, Repr

/-- `generator.Feature`: a feature/role name plus its ordered package list. -/
structure Feature where
  feature_name : String
  packages : List Package
deriving DecidableEq, Repr

/-- `generator.FeatureList`: insertion-ordered dict of role name to Feature,
modelled as an association list. -/
structure FeatureList where
  features : List (String × Feature)
deriving DecidableEq, Repr

/-- Python `str.lower()` (the catalog data is ASCII), character by
character. -/
def pyLower (s : String) : String :=
  String.mk (s.data.map Char.toLower)

/-- Python string comparison: lexicographic by code point, a strict
prefix comparing smaller. -/
def ltChars : List Char → List Char → Bool
  | [], [] => false
  | [], _ :: _ => true
  | _ :: _, [] => false
  | c :: cs, d :: ds => if c < d then true else if d < c then false else ltChars cs ds

/-- Python `a < b` on strings. -/
def strLtB (a b : String) : Bool :=
  ltChars a.data b.data

/-- Stable insertion of `x` into a list by a strict comparison: `x` is
placed before the first element not strictly below it. -/
def insertBy {α : Type} (lt : α → α → Bool) (x : α) : List α → List α
  | [] => [x]
  | y :: ys => if lt y x then y :: insertBy lt x ys else x :: y :: ys

/-- Python `sorted` by a strict comparison: stable insertion sort. -/
def sortBy {α : Type} (lt : α → α → Bool) (l : List α) : List α :=
  l.foldr (insertBy lt) []

/-- Dict lookup `feature_list.features.get(name)` on the ordered dict. -/
def findFeature (fl : FeatureList) (name : String) : Option Feature :=
  (fl.features.find? (fun nf => nf.1 = name)).map Prod.snd

/-- The package list of the role `name`, or `[]` when the role is absent. -/
def rolePackages (fl : FeatureList) (name : String) : List Package :=
  match findFeature fl name with
  | some f => f.packages
  | none => []

/-- Body of the retained-package branch of `_filter_featurelist_for_arch`
(generator.py lines 113-137): `repo_name` starts at `""`, `uri` at `p.uri`;
the first source record whose `Architecture` equals `arch` (if any)
overrides them via its `RepoName` / `Uri` keys when those keys are present;
`architecture` becomes the singleton `[arch]`. -/
def narrowPackageForArch (arch : String) (p : Package) : Package :=
  let rec0 := (p.sources.getD []).find? (fun r => r.Architecture = some arch)
  let repoName := match rec0 with
    | some r => r.RepoName.getD ""
    | none => ""
  let uri := match rec0 with
    | some r => r.Uri.or p.uri
    | none => p.uri
  { package := p.package, type := p.type, repo_name := repoName,
    architecture := [arch], uri := uri, tag := p.tag, sources := p.sources }

/-- `_filter_featurelist_for_arch` (generator.py lines 104-139): every role
is kept; within a role, exactly the packages whose `architecture` list
contains `arch` are retained, rebuilt by `narrowPackageForArch`. -/
def filterFeaturelistForArch (fl : FeatureList) (arch : String) : FeatureList :=
  { features := fl.features.map (fun nf =>
      (nf.1, { feature_name := nf.1,
               packages := (nf.2.packages.filter
                   (fun p => decide (arch ∈ p.architecture))).map
                 (narrowPackageForArch arch) })) }

/-- `adapter._package_key`: the fixed-rule identity key
`(package, type, repo_name)`. -/
def packageKeyFR (p : Package) : String × String × String :=
  (p.package, p.type, p.repo_name)

/-- The dict produced by `generator._package_common_dict` /
`adapter._package_to_dict`: always carries `package` and `type`;
`repo_name` only when non-empty, `uri` only when not `None`,
`tag` only when truthy and non-empty; no `architecture`. -/
structure AdapterPackageDict where
  package : String
  type : String
  repo_name : Option String
  uri : Option String
  tag : Option String
deriving DecidableEq, Repr

/-- `generator._package_common_dict` (generator.py lines 397-410). -/
def packageCommonDict (p : Package) : AdapterPackageDict :=
  { package := p.package,
    type := p.type,
    repo_name := if p.repo_name ≠ "" then some p.repo_name else none,
    uri := p.uri,
    tag := match p.tag with
      | some t => if t ≠ "" then some t else none
      | none => none }

/-- The fixed-rule identity key as read back off an adapter package dict. -/
def dictKeyFR (d : AdapterPackageDict) : String × String × String :=
  (d.package, d.type, d.repo_name.getD "")

/-- The loop in `build_service_k8s_config` that keeps one instance per
common key, in first-appearance order: `seen` is the set of already
emitted keys. -/
def dedupByKeyFR : List Package → List (String × String × String) → List Package
  | [], _ => []
  | p :: rest, seen =>
    if packageKeyFR p ∈ seen then dedupByKeyFR rest seen
    else p :: dedupByKeyFR rest (packageKeyFR p :: seen)

/-- Result shape of `build_service_k8s_config`: three clusters of adapter
package dicts. -/
structure K8sConfig where
  service_kube_control_plane : List AdapterPackageDict
  service_kube_node : List AdapterPackageDict
  service_k8s : List AdapterPackageDict
deriving DecidableEq, Repr

/-- `adapter.build_service_k8s_config` (adapter.py lines 123-170): raises
(here: `Except.error`) when either K8S role is absent; otherwise the
common keys (key intersection of the two roles) go deduplicated into
`service_k8s` and are filtered out of both role clusters. -/
def buildServiceK8sConfig (functional : FeatureList) : Except String K8sConfig :=
  match findFeature functional "K8S Controller", findFeature functional "K8S Worker" with
  | some controller, some worker =>
    let ctrlPkgs := controller.packages
    let nodePkgs := worker.packages
    let isCommon : Package → Bool := fun p =>
      decide (packageKeyFR p ∈ ctrlPkgs.map packageKeyFR) &&
      decide (packageKeyFR p ∈ nodePkgs.map packageKeyFR)
    let commonPkgs := dedupByKeyFR ((ctrlPkgs ++ nodePkgs).filter isCommon) []
    Except.ok
      { service_kube_control_plane :=
          (ctrlPkgs.filter (fun p => ! isCommon p)).map packageCommonDict,
        service_kube_node :=
          (nodePkgs.filter (fun p => ! isCommon p)).map packageCommonDict,
        service_k8s := commonPkgs.map packageCommonDict }
  | _, _ =>
    Except.error "K8S Controller or K8S Worker feature not found in functional layer"

/-- The JSON object written for one package by `serialize_json`
(`_package_to_json_dict`): the common dict plus a mandatory
`architecture` key.  `Option` fields model key presence. -/
structure PackageJson where
  package : String
  type : String
  repo_name : Option String
  uri : Option String
  tag : Option String
  architecture : Option (List String)
deriving DecidableEq, Repr

/-- `generator._package_to_json_dict`. -/
def packageToJsonDict (p : Package) : PackageJson :=
  let c := packageCommonDict p
  { package := c.package, type := c.type, repo_name := c.repo_name,
    uri := c.uri, tag := c.tag, architecture := some p.architecture }

/-- `generator._package_from_json_dict`: missing `repo_name` defaults to
`""`, missing `architecture` to `[]`, missing `uri`/`tag` to `None`;
`sources` is never restored. -/
def packageFromJsonDict (d : PackageJson) : Package :=
  { package := d.package,
    type := d.type,
    repo_name := d.repo_name.getD "",
    architecture := d.architecture.getD [],
    uri := d.uri,
    tag := d.tag,
    sources := none }

/-- The JSON document written by `serialize_json`: an ordered object of
role name to its list of single-line package objects. -/
def serializeFeatureList (fl : FeatureList) : List (String × List PackageJson) :=
  fl.features.map (fun nf => (nf.1, nf.2.packages.map packageToJsonDict))

/-- `generator.deserialize_json` applied to a parsed document: each role
is rebuilt with `feature_name` equal to its JSON key. -/
def deserializeFeatureList (doc : List (String × List PackageJson)) : FeatureList :=
  { features := doc.map (fun nd =>
      (nd.1, { feature_name := nd.1, packages := nd.2.map packageFromJsonDict })) }

/-- A catalog package (`models.Package` / `models.OsPackage` /
`models.FunctionalPackage`): here `uri` is a plain string and `tag`
defaults to `""`. -/
structure CatalogPackage where
  id : String
  name : String
  version : String
  supported_os : List String
  uri : String
  architecture : List String
  type : String
  tag : String := ""
  sources : Option (List SourceRec) := none
deriving DecidableEq, Repr

/-- One entry of `catalog.functional_layer`: a dict with a `Name` and a
list of functional package ids. -/
structure FunctionalGroup where
  Name : String
  FunctionalPackages : List String
deriving DecidableEq, Repr

/-- The slice of `models.Catalog` exercised by the claims:
functional-layer groups plus the functional and OS package tables. -/
structure CatalogModel where
  functional_layer : List FunctionalGroup
  functional_packages : List CatalogPackage
  os_packages : List CatalogPackage
deriving DecidableEq, Repr

/-- `generator.generate_functional_layer_json` (generator.py lines
175-210): one Feature per group; each referenced id is resolved against
`functional_packages` by first match and silently skipped when absent. -/
def generateFunctionalLayerJson (catalog : CatalogModel) : FeatureList :=
  { features := catalog.functional_layer.map (fun layer =>
      (layer.Name,
       { feature_name := layer.Name,
         packages := layer.FunctionalPackages.filterMap (fun pkgId =>
           (catalog.functional_packages.find? (fun pkg => pkg.id = pkgId)).map
             (fun pkg =>
               { package := pkg.name, type := pkg.type, repo_name := "",
                 architecture := pkg.architecture, uri := none,
                 tag := some pkg.tag, sources := pkg.sources })) })) }

/-- `os_entry.split(" ", 1)`: split at the first space, the version
defaulting to `""` when no space is present. -/
def splitOsEntry (osEntry : String) : String × String :=
  match osEntry.splitOn " " with
  | [] => (osEntry, "")
  | [_] => (osEntry, "")
  | x :: rest => (x, String.intercalate " " rest)

/-- Python tuple `<` on `(arch, os_name, os_ver)` triples: lexicographic
with string comparison on each component. -/
def comboLt (a b : String × String × String) : Bool :=
  strLtB a.1 b.1 ||
    (a.1 == b.1 &&
      (strLtB a.2.1 b.2.1 || (a.2.1 == b.2.1 && strLtB a.2.2 b.2.2)))

/-- The non-strict companion of `comboLt`: the order in which `sorted`
leaves the combination triples. -/
def comboLe (a b : String × String × String) : Bool :=
  !(comboLt b a)

/-- The raw combination stream of
`_discover_arch_os_version_from_catalog`: every functional and OS
package contributes one `(arch, lowercased family, version)` triple per
(supported-OS entry, architecture) pair. -/
def comboStream (catalog : CatalogModel) : List (String × String × String) :=
  let addFrom := fun (pkgs : List CatalogPackage) =>
    pkgs.flatMap (fun pkg => pkg.supported_os.flatMap (fun osEntry =>
      let fv := splitOsEntry osEntry
      pkg.architecture.map (fun arch => (arch, pyLower fv.1, fv.2))))
  addFrom catalog.functional_packages ++ addFrom catalog.os_packages

/-- `generator._discover_arch_os_version_from_catalog` (lines 142-172):
the combination stream collected into a set and returned sorted; the
input order never surfaces because the result is exactly the sorted list
of the distinct triples. -/
def discoverArchOsVersion (catalog : CatalogModel) : List (String × String × String) :=
  sortBy comboLt ((comboStream catalog).dedup)

/-- One package entry of the result of `get_package_list`:
`repo_name` is reported as `None` when the stored value is `""`. -/
structure RolePackageInfo where
  name : String
  type : String
  repo_name : Option String
  architecture : List String
  uri : Option String
  tag : Option String
deriving DecidableEq, Repr

/-- One role object of the result of `get_package_list`. -/
structure RoleObj where
  roleName : String
  packages : List RolePackageInfo
deriving DecidableEq, Repr

/-- The per-role payload built by the result loop of `get_package_list`. -/
def roleObjOfFeature (roleName : String) (pkgs : List Package) : RoleObj :=
  { roleName := roleName,
    packages := pkgs.map (fun pkg =>
      { name := pkg.package, type := pkg.type,
        repo_name := if pkg.repo_name ≠ "" then some pkg.repo_name else none,
        architecture := pkg.architecture, uri := pkg.uri, tag := pkg.tag }) }

/-- `generator.get_package_list` (lines 557-699) after file loading and
schema validation: `role = None` processes every role in stored order;
`role = ""` raises `ValueError` before any lookup; otherwise the first
role whose lowercased name matches is used, else `ValueError`. -/
def getPackageList (fl : FeatureList) (role : Option String) : Except String (List RoleObj) :=
  let availableRoles := fl.features.map Prod.fst
  match role with
  | some r =>
    if r = "" then Except.error "Role must be a non-empty string"
    else
      match availableRoles.find? (fun ar => pyLower ar = pyLower r) with
      | some matched =>
        Except.ok [roleObjOfFeature matched (rolePackages fl matched)]
      | none => Except.error ("Role not found: " ++ r)
  | none =>
    Except.ok (fl.features.map (fun nf => roleObjOfFeature nf.1 nf.2.packages))

/-! ## Policy engine (`adapter_policy.py`)

Source documents and policy packages are loosely-typed JSON dicts; a
package is modelled as an insertion-ordered association list of field
name to value.  Field values occurring in source documents are strings
or lists of strings. -/

/-- A JSON field value inside a policy-engine package dict. -/
inductive PVal where
  | str (s : String)
  | list (l : List String)
deriving DecidableEq, Repr

/-- A policy-engine package: an ordered JSON object. -/
abbrev PPkg := List (String × PVal)

/-- Ordered-dict lookup: value of the first entry with the given key. -/
def dictGet {β : Type} (d : List (String × β)) (k : String) : Option β :=
  (d.find? (fun kv => kv.1 = k)).map Prod.snd

/-- Ordered-dict assignment `d[k] = v`: updates the existing entry in
place, else appends the new entry at the end (Python dict semantics). -/
def dictUpdate {β : Type} : List (String × β) → String → β → List (String × β)
  | [], k, v => [(k, v)]
  | kv :: rest, k, v => if kv.1 = k then (k, v) :: rest else kv :: dictUpdate rest k v

/-- `adapter_policy._package_key`: every field except `architecture`,
as a tuple of `(name, value)` pairs sorted by field name.  (Python sorts
the pairs; dict keys are unique so the name alone decides the order, and
`_hashable`'s canonical JSON dump of nested values preserves value
equality, so tuple equality coincides with this list's equality.) -/
def policyPackageKey (pkg : PPkg) : List (String × PVal) :=
  sortBy (fun a b => strLtB a.1 b.1)
    (pkg.filter (fun kv => decide (kv.1 ≠ "architecture")))

/-- Python `needle in haystack` on strings (substring containment). -/
def strContainsSub (hay pat : String) : Bool :=
  if pat = "" then true else decide (2 ≤ (hay.splitOn pat).length)

/-- `str.lower()` lifted to field values.  (Python would raise
`AttributeError` on a list value here; valid source documents only ever
reach this with string values, and the model leaves lists unchanged.) -/
def lowerPVal : PVal → PVal
  | PVal.str s => PVal.str (pyLower s)
  | PVal.list l => PVal.list l

/-- Python `v in field_value`: substring test on strings, membership on
lists. -/
def pvalSubstrMatch (v : String) : PVal → Bool
  | PVal.str s => strContainsSub s v
  | PVal.list l => l.contains v

/-- Python `str(value)` for the values a package field can hold
(`str` of a list of plain strings is its bracketed repr). -/
def pvalStr : PVal → String
  | PVal.str s => s
  | PVal.list l =>
    "[" ++ String.intercalate ", " (l.map (fun s => "'" ++ s ++ "'")) ++ "]"

/-- A filter configuration dict: `type`, `field`, `values`,
`case_sensitive` and (for `any_of`) nested `filters`.  `Option` models
key absence; `values`/`filters`/`case_sensitive` carry the `.get`
defaults `[]` / `[]` / `False` already applied. -/
inductive FilterConfig where
  | mk (ftype : Option String) (ffield : Option String) (fvalues : List String)
      (fcase : Bool) (ffilters : List FilterConfig)

/-- The `type` entry of a filter configuration. -/
def FilterConfig.ftype : FilterConfig → Option String
  | FilterConfig.mk t _ _ _ _ => t

/-- The `field` entry of a filter configuration. -/
def FilterConfig.ffield : FilterConfig → Option String
  | FilterConfig.mk _ f _ _ _ => f

/-- The `values` entry of a filter configuration (default `[]`). -/
def FilterConfig.fvalues : FilterConfig → List String
  | FilterConfig.mk _ _ v _ _ => v

/-- The `case_sensitive` entry of a filter configuration (default `False`). -/
def FilterConfig.fcase : FilterConfig → Bool
  | FilterConfig.mk _ _ _ c _ => c

/-- The nested `filters` entry of an `any_of` filter (default `[]`). -/
def FilterConfig.ffilters : FilterConfig → List FilterConfig
  | FilterConfig.mk _ _ _ _ fs => fs

/-- `adapter_policy.apply_substring_filter` (lines 143-167): the empty
value list short-circuits to the input; otherwise a package is kept when
its field value (defaulting to `""`, case-folded unless case-sensitive)
contains any of the configured substrings. -/
def applySubstringFilter (packages : List PPkg) (fc : FilterConfig) : List PPkg :=
  let field := fc.ffield.getD "package"
  let values := fc.fvalues
  if values = [] then packages
  else packages.filter (fun pkg =>
    let fieldValue := (dictGet pkg field).getD (PVal.str "")
    let fieldValue1 := if fc.fcase then fieldValue else lowerPVal fieldValue
    let checkValues := if fc.fcase then values else values.map pyLower
    checkValues.any (fun v => pvalSubstrMatch v fieldValue1))

/-- `adapter_policy.apply_allowlist_filter` (lines 170-196): the empty
value list short-circuits to the input; otherwise a package is kept when
its field value is present and `str` of it (case-folded unless
case-sensitive) equals one of the configured values. -/
def applyAllowlistFilter (packages : List PPkg) (fc : FilterConfig) : List PPkg :=
  let field := fc.ffield.getD "package"
  let values := fc.fvalues
  if values = [] then packages
  else
    let allowed := if fc.fcase then values else values.map pyLower
    packages.filter (fun pkg =>
      match dictGet pkg field with
      | none => false
      | some fv =>
        let s := pvalStr fv
        allowed.contains (if fc.fcase then s else pyLower s))

/-- `adapter_policy.apply_field_in_filter` (lines 199-233): pass-through
when the field name is falsy or the value list empty; list-valued fields
are kept when any element intersects the allow-set, scalars when their
string form is in it. -/
def applyFieldInFilter (packages : List PPkg) (fc : FilterConfig) : List PPkg :=
  match fc.ffield with
  | none => packages
  | some field =>
    if field = "" ∨ fc.fvalues = [] then packages
    else
      let allowed := if fc.fcase then fc.fvalues else fc.fvalues.map pyLower
      packages.filter (fun pkg =>
        match dictGet pkg field with
        | none => false
        | some (PVal.list l) =>
          let vals := if fc.fcase then l else l.map pyLower
          vals.any (fun v => allowed.contains v)
        | some fv =>
          let s := pvalStr fv
          allowed.contains (if fc.fcase then s else pyLower s))

/-- `adapter_policy.apply_filter` together with `apply_any_of_filter`
(lines 236-253 and 333-358): dispatch on the `type` tag; `any_of` keeps
a package when some nested sub-filter keeps it; unknown or missing types
pass through with a warning.  (The unused `source_data` / `source_key`
threading of the source is dropped: no reachable branch reads them.) -/
def applyFilterF : FilterConfig → List PPkg → List PPkg
  | fc@(FilterConfig.mk t _ _ _ subs), packages =>
    match t with
    | some "substring" => applySubstringFilter packages fc
    | some "allowlist" => applyAllowlistFilter packages fc
    | some "field_in" => applyFieldInFilter packages fc
    | some "any_of" =>
      if subs.isEmpty then packages
      else packages.filter (fun p =>
        subs.attach.any (fun sub => !(applyFilterF sub.1 [p]).isEmpty))
    | _ => packages
decreasing_by
  have := List.sizeOf_lt_of_mem sub.2
  simp only [FilterConfig.mk.sizeOf_spec] at *
  omega

/-- `apply_filter` applied to an optional pull filter: identity
pass-through when no filter is declared. -/
def applyFilter (packages : List PPkg) (fc : Option FilterConfig) : List PPkg :=
  match fc with
  | none => packages
  | some f => applyFilterF f packages

/-- A transform dict: optional `exclude_fields` and `rename_fields`
entries (`Option` models key presence; the rename map is ordered). -/
structure TransformConfig where
  exclude_fields : Option (List String) := none
  rename_fields : Option (List (String × String)) := none
deriving DecidableEq, Repr

/-- Python falsiness of an optional transform dict: `None` or `{}`. -/
def transformIsFalsy : Option TransformConfig → Bool
  | none => true
  | some tc => tc.exclude_fields.isNone && tc.rename_fields.isNone

/-- `adapter_policy.transform_package` (lines 124-140): falsy configs
return the package unchanged; otherwise excluded fields are popped, then
each rename pops the old key and assigns its value to the new key. -/
def transformPackage (pkg : PPkg) (t : Option TransformConfig) : PPkg :=
  if transformIsFalsy t then pkg
  else
    match t with
    | none => pkg
    | some tc =>
      let afterExclude := (tc.exclude_fields.getD []).foldl
        (fun acc field => acc.eraseP (fun kv => kv.1 = field)) pkg
      (tc.rename_fields.getD []).foldl (fun acc rn =>
        match dictGet acc rn.1 with
        | some v => dictUpdate (acc.eraseP (fun kv => kv.1 = rn.1)) rn.2 v
        | none => acc) afterExclude

/-- `adapter_policy.merge_transform` (lines 361-371): falsy inputs are
passed through; otherwise a top-level dict merge where the override's
present entries win. -/
def mergeTransform (base override : Option TransformConfig) : Option TransformConfig :=
  if transformIsFalsy base && transformIsFalsy override then none
  else if transformIsFalsy base then override
  else if transformIsFalsy override then base
  else
    match base, override with
    | some b, some o =>
      some { exclude_fields := o.exclude_fields.or b.exclude_fields,
             rename_fields := o.rename_fields.or b.rename_fields }
    | _, _ => none

/-- Target-role mapping built by `process_target_spec`: ordered dict of
role key to package list. -/
abbrev Roles := List (String × List PPkg)

/-- `target_roles.get(k, [])`. -/
def rget (roles : Roles) (k : String) : List PPkg :=
  (dictGet roles k).getD []

/-- Number of compared roles a key occurs in:
`Counter` built by `compute_common_keys_from_roles`, counting a key at
most once per role occurrence in `from_keys`. -/
def roleKeyCount (roles : Roles) (fromKeys : List String)
    (k : List (String × PVal)) : Nat :=
  fromKeys.countP (fun rk => decide (k ∈ (rget roles rk).map policyPackageKey))

/-- Every package key occurring in the compared roles (with repetition);
the `Counter`'s support is its dedup. -/
def seenRoleKeys (roles : Roles) (fromKeys : List String) :
    List (List (String × PVal)) :=
  fromKeys.flatMap (fun rk => (rget roles rk).map policyPackageKey)

/-- `adapter_policy.compute_common_keys_from_roles` (lines 374-389): the
set of keys seen in the compared roles whose role-occurrence count
reaches the threshold. -/
def computeCommonKeysFromRoles (roles : Roles) (fromKeys : List String)
    (minOccurrences : Nat) : List (List (String × PVal)) :=
  (seenRoleKeys roles fromKeys).dedup.filter
    (fun k => decide (minOccurrences ≤ roleKeyCount roles fromKeys k))

/-- The common-package collection loop of `derive_common_role`: keep the
first package per key, skipping keys already in `seen`. -/
def dedupPkgsByKey : List PPkg → List (List (String × PVal)) → List PPkg
  | [], _ => []
  | p :: rest, seen =>
    if policyPackageKey p ∈ seen then dedupPkgsByKey rest seen
    else p :: dedupPkgsByKey rest (policyPackageKey p :: seen)

/-- `adapter_policy.derive_common_role` (lines 392-418): store the
deduplicated common packages (first-seen-role, first-seen-within-role
order) under the derived key, then, when `remove_from_sources`, filter
every common key out of each compared role in order. -/
def deriveCommonRole (roles : Roles) (derivedKey : String) (fromKeys : List String)
    (minOccurrences : Nat) (removeFromSources : Bool) : Roles :=
  let ck := computeCommonKeysFromRoles roles fromKeys minOccurrences
  let commonPkgs := dedupPkgsByKey
    ((fromKeys.flatMap (fun rk => rget roles rk)).filter
      (fun p => decide (policyPackageKey p ∈ ck))) []
  let roles1 := dictUpdate roles derivedKey commonPkgs
  if removeFromSources then
    fromKeys.foldl (fun acc rk =>
      dictUpdate acc rk ((rget acc rk).filter
        (fun p => decide (policyPackageKey p ∉ ck)))) roles1
  else roles1

/-- A target's `conditions` dict: per-dimension allow-lists. -/
structure Conditions where
  architectures : Option (List String) := none
  os_families : Option (List String) := none
  os_versions : Option (List String) := none

/-- `adapter_policy.check_conditions` (lines 421-443). -/
def checkConditions (c : Option Conditions) (arch osFamily osVersion : String) : Bool :=
  match c with
  | none => true
  | some c =>
    (match c.architectures with | some l => decide (arch ∈ l) | none => true) &&
    (match c.os_families with | some l => decide (osFamily ∈ l) | none => true) &&
    (match c.os_versions with | some l => decide (osVersion ∈ l) | none => true)

/-- One pull inside a source spec. -/
structure PullSpec where
  source_key : Option String := none
  target_key : Option String := none
  filter : Option FilterConfig := none
  transform : Option TransformConfig := none

/-- One source-file spec of a target. -/
structure SourceSpec where
  source_file : Option String := none
  pulls : List PullSpec := []

/-- A derived spec's `operation` dict, with the `.get` defaults
(`from_keys = []`, `min_occurrences = 2`, `remove_from_sources = True`)
already applied. -/
structure ExtractOp where
  optype : Option String := none
  from_keys : List String := []
  min_occurrences : Nat := 2
  remove_from_sources : Bool := true

/-- One derived spec of a target. -/
structure DerivedSpec where
  target_key : Option String := none
  operation : ExtractOp := {}

/-- A target spec of the policy document. -/
structure TargetSpec where
  conditions : Option Conditions := none
  transform : Option TransformConfig := none
  sources : List SourceSpec := []
  derived : List DerivedSpec := []

/-- A loaded source document: ordered dict of role key to that role's
`packages` list (`feature.get("packages", [])` already applied). -/
abbrev SourceDoc := List (String × List PPkg)

/-- The role-building body of `process_target_spec` (lines 461-508):
the pulls loop (skipping falsy/missing source files and keys, applying
filter then merged transform, storing last-write-wins under the resolved
target key) followed by the derived loop (only `extract_common`
operations with a truthy derived key and non-empty `from_keys` run). -/
def buildTargetRoles (ts : TargetSpec) (sourceFiles : List (String × SourceDoc)) : Roles :=
  let pulled := ts.sources.foldl (fun roles ss =>
    match ss.source_file with
    | none => roles
    | some sf =>
      if sf = "" then roles
      else
        match dictGet sourceFiles sf with
        | none => roles
        | some sd =>
          ss.pulls.foldl (fun roles2 pull =>
            match pull.source_key with
            | none => roles2
            | some sk =>
              if sk = "" then roles2
              else
                match dictGet sd sk with
                | none => roles2
                | some packages0 =>
                  let targetKey := match pull.target_key with
                    | some tk => if tk = "" then sk else tk
                    | none => sk
                  let pullTransform := mergeTransform ts.transform pull.transform
                  let packages1 := applyFilter packages0 pull.filter
                  let packages2 := packages1.map (fun p => transformPackage p pullTransform)
                  dictUpdate roles2 targetKey packages2) roles) ([] : Roles)
  ts.derived.foldl (fun roles d =>
    if d.operation.optype ≠ some "extract_common" then roles
    else
      match d.target_key with
      | none => roles
      | some dk =>
        if dk = "" ∨ d.operation.from_keys = [] then roles
        else deriveCommonRole roles dk d.operation.from_keys
          d.operation.min_occurrences d.operation.remove_from_sources) pulled

/-- Per-combination accumulator: ordered dict of target file name to its
role mapping (the `{"cluster": pkgs}` wrapper around each role's package
list is carried transparently as the list itself). -/
abbrev TargetConfigs := List (String × Roles)

/-- `adapter_policy.process_target_spec` (lines 446-514): skip when the
conditions fail; build the roles; record an output entry exactly when
the role dict is non-empty (`if target_roles:`). -/
def processTargetSpec (targetFile : String) (ts : TargetSpec)
    (sourceFiles : List (String × SourceDoc)) (targetConfigs : TargetConfigs)
    (arch osFamily osVersion : String) : TargetConfigs :=
  if ! checkConditions ts.conditions arch osFamily osVersion then targetConfigs
  else
    let targetRoles := buildTargetRoles ts sourceFiles
    if targetRoles.isEmpty then targetConfigs
    else dictUpdate targetConfigs targetFile targetRoles

/-- The per-combination loop body of `generate_configs_from_policy`
(lines 601-612): every policy target processed in order into an
initially empty config dict. -/
def processCombination (targets : List (String × TargetSpec))
    (sourceFiles : List (String × SourceDoc))
    (arch osFamily osVersion : String) : TargetConfigs :=
  targets.foldl
    (fun acc t => processTargetSpec t.1 t.2 sourceFiles acc arch osFamily osVersion) []

/-- The write loop of `generate_configs_from_policy` (lines 614-618):
the files written for one combination are the recorded targets whose
config dict is truthy (`if data:`). -/
def writtenFiles (targets : List (String × TargetSpec))
    (sourceFiles : List (String × SourceDoc))
    (arch osFamily osVersion : String) : List String :=
  ((processCombination targets sourceFiles arch osFamily osVersion).filter
    (fun kv => ! kv.2.isEmpty)).map Prod.fst

/-! ## Concrete example inputs -/

/-- The etcd package of the spec's Kubernetes-split scenario. -/
def pkgEtcd : Package :=
  { package := "etcd", type := "tarball", repo_name := "", architecture := ["x86_64"] }

/-- The containerd package of the spec's Kubernetes-split scenario. -/
def pkgContainerd : Package :=
  { package := "containerd", type := "tarball", repo_name := "", architecture := ["x86_64"] }

/-- Functional layer with "K8S Controller" = [etcd] and
"K8S Worker" = [etcd, containerd]. -/
def flK8sExample : FeatureList :=
  ⟨[("K8S Controller", ⟨"K8S Controller", [pkgEtcd]⟩),
    ("K8S Worker", ⟨"K8S Worker", [pkgEtcd, pkgContainerd]⟩)]⟩

/-- Two roles sharing the same package, for the derived-extraction
scenario. -/
def rolesExample : Roles :=
  [("A", [[("package", PVal.str "foo"), ("type", PVal.str "rpm")]]),
   ("B", [[("package", PVal.str "foo"), ("type", PVal.str "rpm")]])]

/-- A target whose single pull copies a role that resolves to an empty
package list. -/
def targetSpecEmptyPull : TargetSpec :=
  { sources := [{ source_file := some "base_os.json",
                  pulls := [{ source_key := some "Base OS" }] }] }

/-- Loaded source files providing one role whose package list is empty. -/
def sourceFilesEmptyPull : List (String × SourceDoc) :=
  [("base_os.json", [("Base OS", [])])]

/-- A package whose `tag` is the empty string and whose `sources` list is
populated: both are dropped by a serialize/deserialize round trip. -/
def pkgTagEmpty : Package :=
  { package := "p1", type := "rpm", repo_name := "", architecture := ["x86_64"],
    tag := some "", sources := some [{ Architecture := some "x86_64" }] }

/-- A one-role FeatureList containing `pkgTagEmpty`. -/
def flTagEmpty : FeatureList := ⟨[("Role", ⟨"Role", [pkgTagEmpty]⟩)]⟩

/-- A package that survives the serialize/deserialize round trip. -/
def pkgRoundGood : Package :=
  { package := "p1", type := "rpm", repo_name := "r",
    architecture := ["x86_64"], uri := some "u", tag := some "t" }

/-- A FeatureList whose packages survive the round trip unchanged. -/
def flRoundtripGood : FeatureList :=
  ⟨[("Role", ⟨"Role", [pkgRoundGood]⟩)]⟩

/-- A package with a pre-set repository name and no per-architecture
source records. -/
def pkgRepoPreset : Package :=
  { package := "p", type := "rpm", repo_name := "r1", architecture := ["x86_64"] }

/-- A one-role FeatureList containing `pkgRepoPreset`. -/
def flRepoPreset : FeatureList := ⟨[("Role", ⟨"Role", [pkgRepoPreset]⟩)]⟩

/-- A package carrying a matching per-architecture source record. -/
def pkgWithSource : Package :=
  { package := "p", type := "rpm", repo_name := "", architecture := ["x86_64"],
    uri := some "default",
    sources := some [{ Architecture := some "x86_64", RepoName := some "nr",
                       Uri := some "nu" }] }

/-- A one-role FeatureList containing `pkgWithSource`. -/
def flWithSource : FeatureList := ⟨[("Role", ⟨"Role", [pkgWithSource]⟩)]⟩

/-- A resolvable functional catalog package with id `id1`. -/
def cpkg1 : CatalogPackage :=
  { id := "id1", name := "p1", version := "1.0", supported_os := ["RHEL 9.0"],
    uri := "", architecture := ["x86_64"], type := "rpm" }

/-- A resolvable functional catalog package with id `id2`. -/
def cpkg2 : CatalogPackage :=
  { id := "id2", name := "p2", version := "1.0", supported_os := ["RHEL 9.0"],
    uri := "", architecture := ["x86_64"], type := "rpm" }

/-- A policy-engine package dict, for filter identity checks. -/
def ppkgFoo : PPkg := [("package", PVal.str "foo"), ("type", PVal.str "rpm")]

/-! ## Helper lemmas -/

theorem dictGet_dictUpdate_self {β : Type} (d : List (String × β)) (k : String) (v : β) :
    dictGet (dictUpdate d k v) k = some v := by
  induction d with
  | nil => simp [dictGet, dictUpdate]
  | cons kv rest ih =>
    by_cases h : kv.1 = k
    · simp [dictUpdate, dictGet, h]
    · simp [dictUpdate, dictGet, h] at ih ⊢
      exact ih

theorem find?_key_dictUpdate_ne {β : Type} (d : List (String × β)) (k k' : String) (v : β)
    (h : k' ≠ k) :
    (dictUpdate d k v).find? (fun kv => kv.1 = k') = d.find? (fun kv => kv.1 = k') := by
  induction d with
  | nil =>
    simp [dictUpdate, List.find?_cons_of_neg, Ne.symm h]
  | cons kv rest ih =>
    by_cases hk : kv.1 = k
    · have hne : ¬ (decide (kv.1 = k') = true) := by simp [hk, Ne.symm h]
      simp only [dictUpdate, hk, if_true]
      rw [List.find?_cons_of_neg _ (by simp [Ne.symm h])]
      exact (List.find?_cons_of_neg rest hne).symm
    · by_cases hk' : kv.1 = k'
      · simp only [dictUpdate, hk, if_false]
        rw [List.find?_cons_of_pos _ (by simp [hk']), List.find?_cons_of_pos _ (by simp [hk'])]
      · simp only [dictUpdate, hk, if_false]
        rw [List.find?_cons_of_neg _ (by simp [hk']), List.find?_cons_of_neg _ (by simp [hk'])]
        exact ih

theorem dictGet_dictUpdate_ne {β : Type} (d : List (String × β)) (k k' : String) (v : β)
    (h : k' ≠ k) : dictGet (dictUpdate d k v) k' = dictGet d k' := by
  unfold dictGet
  rw [find?_key_dictUpdate_ne _ _ _ _ h]

theorem rget_dictUpdate_self (roles : Roles) (k : String) (v : List PPkg) :
    rget (dictUpdate roles k v) k = v := by
  simp [rget, dictGet_dictUpdate_self]

theorem rget_dictUpdate_ne (roles : Roles) (k k' : String) (v : List PPkg)
    (h : k' ≠ k) : rget (dictUpdate roles k v) k' = rget roles k' := by
  simp [rget, dictGet_dictUpdate_ne _ _ _ _ h]

theorem rget_removeFold (fks : List String) (roles : Roles) (pred : PPkg → Bool)
    (rk : String) :
    rget (fks.foldl (fun acc r => dictUpdate acc r ((rget acc r).filter pred)) roles) rk =
      if rk ∈ fks then (rget roles rk).filter pred else rget roles rk := by
  induction fks generalizing roles with
  | nil => simp
  | cons f fs ih =>
    rw [List.foldl_cons, ih]
    by_cases hf : rk = f
    · subst hf
      by_cases hin : rk ∈ fs
      · simp [hin, rget_dictUpdate_self, List.filter_filter]
      · simp [hin, rget_dictUpdate_self]
    · by_cases hin : rk ∈ fs
      · simp [hin, hf, rget_dictUpdate_ne _ _ _ _ hf]
      · have : ¬ rk ∈ f :: fs := by simp [hf, hin]
        simp [hin, this, rget_dictUpdate_ne _ _ _ _ hf]

theorem mem_map_key_dedupPkgsByKey (l : List PPkg) (seen : List (List (String × PVal)))
    (k : List (String × PVal)) :
    k ∈ (dedupPkgsByKey l seen).map policyPackageKey ↔
      k ∈ l.map policyPackageKey ∧ k ∉ seen := by
  induction l generalizing seen with
  | nil => simp [dedupPkgsByKey]
  | cons p rest ih =>
    by_cases h : policyPackageKey p ∈ seen
    · rw [dedupPkgsByKey]
      simp only [h, if_true, List.map_cons, List.mem_cons, ih]
      constructor
      · rintro ⟨hm, hs⟩
        exact ⟨Or.inr hm, hs⟩
      · rintro ⟨hm | hm, hs⟩
        · exact absurd (hm ▸ h) hs
        · exact ⟨hm, hs⟩
    · rw [dedupPkgsByKey]
      simp only [h, if_false, List.map_cons, List.mem_cons, ih, List.mem_cons]
      constructor
      · rintro (hk | ⟨hm, hs⟩)
        · exact ⟨Or.inl hk, hk ▸ h⟩
        · exact ⟨Or.inr hm, fun hx => hs (Or.inr hx)⟩
      · rintro ⟨hk | hm, hs⟩
        · exact Or.inl hk
        · by_cases hkp : k = policyPackageKey p
          · exact Or.inl hkp
          · exact Or.inr ⟨hm, by simp [hkp, hs]⟩

theorem mem_map_key_dedupByKeyFR (l : List Package) (seen : List (String × String × String))
    (k : String × String × String) :
    k ∈ (dedupByKeyFR l seen).map packageKeyFR ↔
      k ∈ l.map packageKeyFR ∧ k ∉ seen := by
  induction l generalizing seen with
  | nil => simp [dedupByKeyFR]
  | cons p rest ih =>
    by_cases h : packageKeyFR p ∈ seen
    · rw [dedupByKeyFR]
      simp only [h, if_true, List.map_cons, List.mem_cons, ih]
      constructor
      · rintro ⟨hm, hs⟩
        exact ⟨Or.inr hm, hs⟩
      · rintro ⟨hm | hm, hs⟩
        · exact absurd (hm ▸ h) hs
        · exact ⟨hm, hs⟩
    · rw [dedupByKeyFR]
      simp only [h, if_false, List.map_cons, List.mem_cons, ih, List.mem_cons]
      constructor
      · rintro (hk | ⟨hm, hs⟩)
        · exact ⟨Or.inl hk, hk ▸ h⟩
        · exact ⟨Or.inr hm, fun hx => hs (Or.inr hx)⟩
      · rintro ⟨hk | hm, hs⟩
        · exact Or.inl hk
        · by_cases hkp : k = packageKeyFR p
          · exact Or.inl hkp
          · exact Or.inr ⟨hm, by simp [hkp, hs]⟩

theorem dictKeyFR_packageCommonDict (p : Package) :
    dictKeyFR (packageCommonDict p) = packageKeyFR p := by
  by_cases h : p.repo_name = "" <;>
    simp [dictKeyFR, packageCommonDict, packageKeyFR, h]

theorem ltChars_trans : ∀ (x y z : List Char),
    ltChars x y = true → ltChars y z = true → ltChars x z = true
  | [], [], _, h1, _ => by simp [ltChars] at h1
  | [], _ :: _, [], _, h2 => by simp [ltChars] at h2
  | [], _ :: _, _ :: _, _, _ => by simp [ltChars]
  | _ :: _, [], _, h1, _ => by simp [ltChars] at h1
  | _ :: _, _ :: _, [], _, h2 => by simp [ltChars] at h2
  | c :: cs, d :: ds, e :: es, h1, h2 => by
    simp only [ltChars] at h1 h2 ⊢
    by_cases hcd : c < d
    · by_cases hde : d < e
      · simp [lt_trans hcd hde]
      · by_cases hed : e < d
        · simp [hde, hed] at h2
        · have hde' : d = e := le_antisymm (not_lt.mp hed) (not_lt.mp hde)
          simp [hde' ▸ hcd]
    · by_cases hdc : d < c
      · simp [hcd, hdc] at h1
      · have hcd' : c = d := le_antisymm (not_lt.mp hdc) (not_lt.mp hcd)
        subst hcd'
        simp only [lt_irrefl, if_false, ite_self] at h1
        by_cases hce : c < e
        · simp [hce]
        · by_cases hec : e < c
          · simp [hce, hec] at h2
          · simp only [hce, hec, if_false] at h2 ⊢
            exact ltChars_trans cs ds es h1 h2

theorem ltChars_asymm : ∀ (x y : List Char),
    ltChars x y = true → ltChars y x = false
  | [], [], h => by simp [ltChars] at h
  | [], _ :: _, _ => by simp [ltChars]
  | _ :: _, [], h => by simp [ltChars] at h
  | c :: cs, d :: ds, h => by
    simp only [ltChars] at h ⊢
    by_cases hcd : c < d
    · simp [lt_asymm hcd, hcd]
    · by_cases hdc : d < c
      · simp [hcd, hdc] at h
      · have : c = d := le_antisymm (not_lt.mp hdc) (not_lt.mp hcd)
        subst this
        simp only [lt_irrefl, if_false, ite_self] at h ⊢
        exact ltChars_asymm cs ds h

theorem ltChars_connex : ∀ (x y : List Char),
    ltChars x y = false → ltChars y x = false → x = y
  | [], [], _, _ => rfl
  | [], _ :: _, h1, _ => by simp [ltChars] at h1
  | _ :: _, [], _, h2 => by simp [ltChars] at h2
  | c :: cs, d :: ds, h1, h2 => by
    simp only [ltChars] at h1 h2
    by_cases hcd : c < d
    · simp [hcd] at h1
    · by_cases hdc : d < c
      · simp [hdc] at h2
      · have : c = d := le_antisymm (not_lt.mp hdc) (not_lt.mp hcd)
        subst this
        simp only [lt_irrefl, if_false, ite_self] at h1 h2
        rw [ltChars_connex cs ds h1 h2]

theorem strLtB_trans {a b c : String} (h1 : strLtB a b = true)
    (h2 : strLtB b c = true) : strLtB a c = true :=
  ltChars_trans a.data b.data c.data h1 h2

theorem strLtB_asymm {a b : String} (h : strLtB a b = true) :
    strLtB b a = false :=
  ltChars_asymm a.data b.data h

theorem strLtB_connex {a b : String} (h1 : strLtB a b = false)
    (h2 : strLtB b a = false) : a = b := by
  cases a with
  | mk xs =>
    cases b with
    | mk ys =>
      have := ltChars_connex xs ys h1 h2
      simp [this]

theorem comboLt_trans {a b c : String × String × String}
    (h1 : comboLt a b = true) (h2 : comboLt b c = true) :
    comboLt a c = true := by
  simp only [comboLt, Bool.or_eq_true, Bool.and_eq_true, beq_iff_eq] at h1 h2 ⊢
  rcases h1 with h1 | ⟨e1, h1⟩
  · rcases h2 with h2 | ⟨e2, _⟩
    · exact Or.inl (strLtB_trans h1 h2)
    · exact Or.inl (e2 ▸ h1)
  · rcases h2 with h2 | ⟨e2, h2⟩
    · exact Or.inl (e1 ▸ h2)
    · refine Or.inr ⟨e1.trans e2, ?_⟩
      rcases h1 with h1 | ⟨f1, h1⟩
      · rcases h2 with h2 | ⟨f2, _⟩
        · exact Or.inl (strLtB_trans h1 h2)
        · exact Or.inl (f2 ▸ h1)
      · rcases h2 with h2 | ⟨f2, h2⟩
        · exact Or.inl (f1 ▸ h2)
        · exact Or.inr ⟨f1.trans f2, strLtB_trans h1 h2⟩

theorem strLtB_irrefl (a : String) : strLtB a a = false := by
  by_cases h : strLtB a a = true
  · exact strLtB_asymm h
  · simpa using h

theorem comboLt_asymm {a b : String × String × String}
    (h : comboLt a b = true) : comboLt b a = false := by
  by_cases hba : comboLt b a = true
  · have hlt := comboLt_trans h hba
    simp only [comboLt, Bool.or_eq_true, Bool.and_eq_true, beq_iff_eq] at hlt
    rcases hlt with h1 | ⟨_, h2 | ⟨_, h3⟩⟩
    · simp [strLtB_irrefl] at h1
    · simp [strLtB_irrefl] at h2
    · simp [strLtB_irrefl] at h3
  · simpa using hba

theorem comboLt_connex {a b : String × String × String}
    (h1 : comboLt a b = false) (h2 : comboLt b a = false) : a = b := by
  simp only [comboLt, Bool.or_eq_false_iff, Bool.and_eq_false_iff] at h1 h2
  obtain ⟨h1a, h1b⟩ := h1
  obtain ⟨h2a, h2b⟩ := h2
  have e1 : a.1 = b.1 := strLtB_connex h1a h2a
  rcases h1b with h1b | ⟨h1c, h1d⟩
  · simp [e1] at h1b
  rcases h2b with h2b | ⟨h2c, h2d⟩
  · simp [e1] at h2b
  have e2 : a.2.1 = b.2.1 := strLtB_connex h1c h2c
  rcases h1d with h1d | h1d
  · simp [e2] at h1d
  rcases h2d with h2d | h2d
  · simp [e2] at h2d
  have e3 : a.2.2 = b.2.2 := strLtB_connex h1d h2d
  exact Prod.ext e1 (Prod.ext e2 e3)

theorem comboLe_of_not_lt {x y : String × String × String}
    (h : comboLt y x = false) : comboLe x y = true := by
  simp [comboLe, h]

theorem comboLe_of_lt {x y : String × String × String}
    (h : comboLt y x = true) : comboLe y x = true := by
  simp [comboLe, comboLt_asymm h]

theorem comboLe_trans {a b c : String × String × String}
    (h1 : comboLe a b = true) (h2 : comboLe b c = true) :
    comboLe a c = true := by
  simp only [comboLe, Bool.not_eq_true'] at h1 h2 ⊢
  by_cases hca : comboLt c a = true
  · exfalso
    by_cases hbc : comboLt b c = true
    · have := comboLt_trans hbc hca
      simp [this] at h1
    · have heq : b = c := comboLt_connex (by simpa using hbc) h2
      rw [← heq] at hca
      simp [hca] at h1
  · simpa using hca

theorem mem_insertBy {α : Type} (lt : α → α → Bool) (x y : α) :
    ∀ (l : List α), y ∈ insertBy lt x l ↔ y = x ∨ y ∈ l
  | [] => by simp [insertBy]
  | z :: zs => by
    by_cases h : lt z x
    · simp only [insertBy, h, if_true, List.mem_cons, mem_insertBy lt x y zs]
      tauto
    · simp [insertBy, h, List.mem_cons]

theorem perm_insertBy {α : Type} (lt : α → α → Bool) (x : α) :
    ∀ (l : List α), (insertBy lt x l).Perm (x :: l)
  | [] => by simp [insertBy]
  | z :: zs => by
    by_cases h : lt z x
    · simp only [insertBy, h, if_true]
      exact ((perm_insertBy lt x zs).cons z).trans (List.Perm.swap x z zs)
    · simp [insertBy, h]

theorem perm_sortBy {α : Type} (lt : α → α → Bool) :
    ∀ (l : List α), (sortBy lt l).Perm l
  | [] => by simp [sortBy]
  | z :: zs => by
    have : sortBy lt (z :: zs) = insertBy lt z (sortBy lt zs) := rfl
    rw [this]
    exact (perm_insertBy lt z (sortBy lt zs)).trans ((perm_sortBy lt zs).cons z)

theorem pairwise_insertBy (x : String × String × String) :
    ∀ (l : List (String × String × String)),
      l.Pairwise (fun a b => comboLe a b = true) →
      (insertBy comboLt x l).Pairwise (fun a b => comboLe a b = true)
  | [], _ => by simp [insertBy]
  | y :: ys, hl => by
    obtain ⟨hy, hys⟩ := List.pairwise_cons.mp hl
    by_cases h : comboLt y x
    · simp only [insertBy, h, if_true]
      refine List.pairwise_cons.mpr ⟨?_, pairwise_insertBy x ys hys⟩
      intro z hz
      rcases (mem_insertBy comboLt x z ys).mp hz with rfl | hz
      · exact comboLe_of_lt h
      · exact hy z hz
    · simp only [insertBy, h, if_false]
      refine List.pairwise_cons.mpr ⟨?_, hl⟩
      intro z hz
      rcases List.mem_cons.mp hz with rfl | hz
      · exact comboLe_of_not_lt (by simpa using h)
      · exact comboLe_trans (comboLe_of_not_lt (by simpa using h)) (hy z hz)

theorem pairwise_sortBy :
    ∀ (l : List (String × String × String)),
      (sortBy comboLt l).Pairwise (fun a b => comboLe a b = true)
  | [] => by simp [sortBy]
  | z :: zs => by
    have : sortBy comboLt (z :: zs) = insertBy comboLt z (sortBy comboLt zs) := rfl
    rw [this]
    exact pairwise_insertBy z (sortBy comboLt zs) (pairwise_sortBy zs)

theorem findFeature_filterArch (fl : FeatureList) (arch name : String) :
    findFeature (filterFeaturelistForArch fl arch) name =
      (findFeature fl name).map (fun f =>
        ({ feature_name := name,
           packages := (f.packages.filter
               (fun p => decide (arch ∈ p.architecture))).map
             (narrowPackageForArch arch) } : Feature)) := by
  obtain ⟨feats⟩ := fl
  unfold findFeature filterFeaturelistForArch
  simp only
  induction feats with
  | nil => rfl
  | cons nf rest ih =>
    by_cases h : nf.1 = name
    · rw [List.map_cons, List.find?_cons_of_pos _ (by simpa using h),
          List.find?_cons_of_pos _ (by simpa using h)]
      simp [h]
    · rw [List.map_cons, List.find?_cons_of_neg _ (by simpa using h),
          List.find?_cons_of_neg _ (by simpa using h)]
      exact ih

theorem packageFromToJson (p : Package) (htag : p.tag ≠ some "")
    (hsrc : p.sources = none) :
    packageFromJsonDict (packageToJsonDict p) = p := by
  obtain ⟨pk, ty, rn, ar, u, t, s⟩ := p
  simp only [Package.mk.injEq] at *
  cases t with
  | none =>
    by_cases h : rn = "" <;>
      simp_all [packageFromJsonDict, packageToJsonDict, packageCommonDict, h]
  | some tv =>
    have htv : tv ≠ "" := by
      intro he
      exact htag (by simp [he])
    by_cases h : rn = "" <;>
      simp_all [packageFromJsonDict, packageToJsonDict, packageCommonDict, h, htv]

/-! ## Claims -/

/-- Claim C9: applying the substring filter with an empty value list
returns the input list unchanged, element for element, and the same
identity holds for the allowlist filter with an empty value list. -/
theorem claim_C9 (packages : List PPkg) (fc1 fc2 : FilterConfig)
    (h1 : fc1.fvalues = []) (h2 : fc2.fvalues = []) :
    applySubstringFilter packages fc1 = packages ∧
    applyAllowlistFilter packages fc2 = packages := by
  constructor
  · simp [applySubstringFilter, h1]
  · simp [applyAllowlistFilter, h2]

/-- Witness for C9 at a concrete package list and concrete empty-valued
substring / allowlist filter configurations. -/
theorem claim_C9_witness :
    (FilterConfig.mk (some "substring") (some "package") [] false []).fvalues = [] ∧
    (FilterConfig.mk (some "allowlist") (some "package") [] false []).fvalues = [] ∧
    (applySubstringFilter [ppkgFoo]
        (FilterConfig.mk (some "substring") (some "package") [] false []) = [ppkgFoo] ∧
      applyAllowlistFilter [ppkgFoo]
        (FilterConfig.mk (some "allowlist") (some "package") [] false []) = [ppkgFoo]) :=
  ⟨rfl, rfl, claim_C9 [ppkgFoo] _ _ rfl rfl⟩

/-- Claim C10: `get_package_list` with the empty string as role raises a
`ValueError` (neither "all roles" nor a not-found role lookup), while
`None` returns the packages of every role in stored order. -/
theorem claim_C10 (fl : FeatureList) :
    getPackageList fl (some "") = Except.error "Role must be a non-empty string" ∧
    getPackageList fl none =
      Except.ok (fl.features.map (fun nf => roleObjOfFeature nf.1 nf.2.packages)) :=
  ⟨rfl, rfl⟩

/-- Counterexample to claim C3 as stated: a target whose only role
resolved to the empty package list still gets its output file written
(`process_target_spec` tests dict non-emptiness, not list
non-emptiness). -/
theorem claim_C3_counterexample :
    buildTargetRoles targetSpecEmptyPull sourceFilesEmptyPull = [("Base OS", [])] ∧
    writtenFiles [("out.json", targetSpecEmptyPull)] sourceFilesEmptyPull
      "x86_64" "rhel" "9.0" = ["out.json"] :=
  ⟨rfl, rfl⟩

/-- Claim C3 (amended): a target's output file entry is written exactly
when its conditions hold and its role dict is non-empty — at least one
role key was stored, even when every stored package list is empty. -/
theorem claim_C3 (tf : String) (ts : TargetSpec) (sf : List (String × SourceDoc))
    (a f v : String) :
    writtenFiles [(tf, ts)] sf a f v =
      if checkConditions ts.conditions a f v = true ∧ buildTargetRoles ts sf ≠ []
      then [tf] else [] := by
  unfold writtenFiles processCombination
  simp only [List.foldl_cons, List.foldl_nil]
  unfold processTargetSpec
  by_cases hc : checkConditions ts.conditions a f v
  · by_cases hr : (buildTargetRoles ts sf).isEmpty
    · have hklist : buildTargetRoles ts sf = [] := by simpa using hr
      simp [hc, hr, hklist]
    · have hne : buildTargetRoles ts sf ≠ [] := by simpa using hr
      simp [hc, hr, hne, dictUpdate]
  · simp [hc]

/-- Claim C5: a package appears in the arch-partitioned FeatureList
exactly when the target architecture is a member of its architecture
list (output packages being the narrowed rebuilds of such packages). -/
theorem claim_C5 (fl : FeatureList) (arch name : String) (p' : Package) :
    p' ∈ rolePackages (filterFeaturelistForArch fl arch) name ↔
    ∃ p, p ∈ rolePackages fl name ∧ arch ∈ p.architecture ∧
      p' = narrowPackageForArch arch p := by
  unfold rolePackages
  rw [findFeature_filterArch]
  cases h : findFeature fl name with
  | none => simp
  | some ff =>
    simp only [Option.map_some']
    constructor
    · intro hp
      simp only [List.mem_map, List.mem_filter] at hp
      obtain ⟨p, ⟨hpmem, hparch⟩, rfl⟩ := hp
      exact ⟨p, hpmem, by simpa using hparch, rfl⟩
    · rintro ⟨p, hpmem, hparch, rfl⟩
      simp only [List.mem_map, List.mem_filter]
      exact ⟨p, ⟨hpmem, by simpa using hparch⟩, rfl⟩

/-- Counterexample to claim C7 as stated: a retained package with a
pre-set repository name and no source records does not keep that value —
the partitioner resets `repo_name` to `""`. -/
theorem claim_C7_counterexample :
    (rolePackages (filterFeaturelistForArch flRepoPreset "x86_64") "Role").map
        Package.repo_name = [""] ∧
    pkgRepoPreset.repo_name = "r1" ∧
    pkgRepoPreset.sources = none ∧
    "x86_64" ∈ pkgRepoPreset.architecture := by
  refine ⟨rfl, rfl, rfl, ?_⟩
  decide

/-- Claim C7 (amended): every package retained by the partitioner is
rebuilt so that, when a source record matching the architecture exists
(first match), `repo_name` / `uri` come from that record's `RepoName` /
`Uri` keys (`repo_name` falling back to `""` and `uri` to the prior
value when a key is absent); with no matching record, `repo_name` is
reset to `""` and `uri` keeps the package's prior value. -/
theorem claim_C7 (fl : FeatureList) (arch name : String) (p : Package)
    (hmem : p ∈ rolePackages fl name) (ha : arch ∈ p.architecture) :
    narrowPackageForArch arch p ∈
      rolePackages (filterFeaturelistForArch fl arch) name ∧
    (∀ r, (p.sources.getD []).find? (fun rc => rc.Architecture = some arch) = some r →
      (narrowPackageForArch arch p).repo_name = r.RepoName.getD "" ∧
      (narrowPackageForArch arch p).uri = r.Uri.or p.uri) ∧
    ((p.sources.getD []).find? (fun rc => rc.Architecture = some arch) = none →
      (narrowPackageForArch arch p).repo_name = "" ∧
      (narrowPackageForArch arch p).uri = p.uri) := by
  refine ⟨?_, ?_, ?_⟩
  · unfold rolePackages at *
    rw [findFeature_filterArch]
    cases h : findFeature fl name with
    | none =>
      rw [h] at hmem
      simp at hmem
    | some ff =>
      rw [h] at hmem
      simp only [Option.map_some', List.mem_map, List.mem_filter]
      exact ⟨p, ⟨hmem, by simpa using ha⟩, rfl⟩
  · intro r hr
    simp [narrowPackageForArch, hr]
  · intro hr
    simp [narrowPackageForArch, hr]

/-- Witness for C7 at a concrete FeatureList whose package carries a
matching per-architecture source record. -/
theorem claim_C7_witness :
    pkgWithSource ∈ rolePackages flWithSource "Role" ∧
    "x86_64" ∈ pkgWithSource.architecture ∧
    narrowPackageForArch "x86_64" pkgWithSource ∈
      rolePackages (filterFeaturelistForArch flWithSource "x86_64") "Role" :=
  ⟨by decide, by decide,
    (claim_C7 flWithSource "x86_64" "Role" pkgWithSource (by decide) (by decide)).1⟩

/-- Claim C8: a functional-layer group id with no resolvable entry in
the functional-package table is simply omitted — removing it from the
group leaves the generated FeatureList unchanged, with no error and the
other packages unaffected. -/
theorem claim_C8 (fps osps : List CatalogPackage) (fl1 fl2 : List FunctionalGroup)
    (name bad : String) (ids1 ids2 : List String)
    (hbad : ∀ pkg ∈ fps, pkg.id ≠ bad) :
    generateFunctionalLayerJson ⟨fl1 ++ ⟨name, ids1 ++ bad :: ids2⟩ :: fl2, fps, osps⟩ =
    generateFunctionalLayerJson ⟨fl1 ++ ⟨name, ids1 ++ ids2⟩ :: fl2, fps, osps⟩ := by
  have hfind : fps.find? (fun pkg => decide (pkg.id = bad)) = none :=
    List.find?_eq_none.mpr (fun pkg hp => by simpa using hbad pkg hp)
  unfold generateFunctionalLayerJson
  simp [List.filterMap_append, List.filterMap_cons, hfind]

/-- Witness for C8: dropping the unresolvable id "missing" from a group
over a two-package table changes nothing. -/
theorem claim_C8_witness :
    (∀ pkg ∈ [cpkg1, cpkg2], pkg.id ≠ "missing") ∧
    generateFunctionalLayerJson
        ⟨[⟨"Group", ["id1", "missing", "id2"]⟩], [cpkg1, cpkg2], []⟩ =
      generateFunctionalLayerJson
        ⟨[⟨"Group", ["id1", "id2"]⟩], [cpkg1, cpkg2], []⟩ :=
  ⟨by decide,
    claim_C8 [cpkg1, cpkg2] [] [] [] "Group" "missing" ["id1"] ["id2"] (by decide)⟩

/-- Counterexample to claim C4 as stated: a package whose `tag` is the
empty string (and whose `sources` list is populated) does not survive
the serialize/deserialize round trip — the tag comes back as `None`. -/
theorem claim_C4_counterexample :
    deserializeFeatureList (serializeFeatureList flTagEmpty) ≠ flTagEmpty ∧
    (rolePackages (deserializeFeatureList (serializeFeatureList flTagEmpty))
        "Role").map Package.tag = [none] ∧
    (rolePackages flTagEmpty "Role").map Package.tag = [some ""] := by
  refine ⟨?_, rfl, rfl⟩
  decide

/-- Claim C4 (amended): serialize→deserialize is the identity on every
FeatureList whose role keys are distinct and match each feature's stored
name and whose packages carry no `sources` and no empty-string `tag`
(role names, package field values and order are preserved exactly). -/
theorem claim_C4 (fl : FeatureList)
    (hnodup : (fl.features.map Prod.fst).Nodup)
    (hname : ∀ nf ∈ fl.features, (nf.2 : Feature).feature_name = nf.1)
    (hpkg : ∀ nf ∈ fl.features, ∀ p ∈ (nf.2 : Feature).packages,
      p.tag ≠ some "" ∧ p.sources = none) :
    deserializeFeatureList (serializeFeatureList fl) = fl := by
  obtain ⟨feats⟩ := fl
  unfold deserializeFeatureList serializeFeatureList
  simp only at *
  congr 1
  simp only [List.map_map]
  induction feats with
  | nil => rfl
  | cons nf rest ih =>
    rw [List.map_cons]
    have hhead : (Function.comp (fun nd => (nd.1,
        ({ feature_name := nd.1, packages := List.map packageFromJsonDict nd.2 } : Feature)))
        (fun nf => (nf.1, nf.2.packages.map packageToJsonDict))) nf = nf := by
      obtain ⟨nm, f⟩ := nf
      obtain ⟨fn, ps⟩ := f
      have hfn : fn = nm := hname (nm, ⟨fn, ps⟩) (List.mem_cons_self _ _)
      have hps : ∀ p ∈ ps, packageFromJsonDict (packageToJsonDict p) = p := by
        intro p hp
        obtain ⟨ht, hs⟩ := hpkg (nm, ⟨fn, ps⟩) (List.mem_cons_self _ _) p hp
        exact packageFromToJson p ht hs
      simp only [Function.comp, List.map_map, Prod.mk.injEq, Feature.mk.injEq, true_and]
      refine ⟨hfn.symm, ?_⟩
      calc ps.map (fun p => packageFromJsonDict (packageToJsonDict p))
          = ps.map id := List.map_congr_left (fun p hp => hps p hp)
        _ = ps := List.map_id ps
    rw [hhead]
    congr 1
    exact ih (by simpa using hnodup.of_cons)
      (fun x hx => hname x (List.mem_cons_of_mem _ hx))
      (fun x hx => hpkg x (List.mem_cons_of_mem _ hx))

/-- Witness for C4 at a concrete well-formed FeatureList. -/
theorem claim_C4_witness :
    (flRoundtripGood.features.map Prod.fst).Nodup ∧
    (∀ nf ∈ flRoundtripGood.features, (nf.2 : Feature).feature_name = nf.1) ∧
    (∀ nf ∈ flRoundtripGood.features, ∀ p ∈ (nf.2 : Feature).packages,
      p.tag ≠ some "" ∧ p.sources = none) ∧
    deserializeFeatureList (serializeFeatureList flRoundtripGood) = flRoundtripGood :=
  ⟨by decide, by decide, by decide,
    claim_C4 flRoundtripGood (by decide) (by decide) (by decide)⟩

/-- Claim C6: combination discovery yields exactly the triples obtained
by splitting each supported-OS string at the first space (version
defaulting to empty), lowercasing the family and crossing with the
package's architectures — deduplicated, sorted ascending by
(architecture, family, version), and deterministic across runs. -/
theorem claim_C6 (catalog : CatalogModel) :
    (discoverArchOsVersion catalog).Pairwise (fun a b => comboLe a b = true) ∧
    (discoverArchOsVersion catalog).Nodup ∧
    (∀ t, t ∈ discoverArchOsVersion catalog ↔
      ∃ pkg, (pkg ∈ catalog.functional_packages ∨ pkg ∈ catalog.os_packages) ∧
        ∃ e ∈ pkg.supported_os, ∃ a ∈ pkg.architecture,
          t = (a, pyLower (splitOsEntry e).1, (splitOsEntry e).2)) ∧
    discoverArchOsVersion catalog = discoverArchOsVersion catalog := by
  refine ⟨pairwise_sortBy _, ?_, ?_, rfl⟩
  · exact ((perm_sortBy comboLt _).nodup_iff).mpr (List.nodup_dedup _)
  · intro t
    rw [discoverArchOsVersion, (perm_sortBy comboLt _).mem_iff, List.mem_dedup]
    unfold comboStream
    simp only [List.mem_append, List.mem_flatMap, List.mem_map]
    constructor
    · rintro (⟨pkg, hp, e, he, a, ha, rfl⟩ | ⟨pkg, hp, e, he, a, ha, rfl⟩)
      · exact ⟨pkg, Or.inl hp, e, he, a, ha, rfl⟩
      · exact ⟨pkg, Or.inr hp, e, he, a, ha, rfl⟩
    · rintro ⟨pkg, hp | hp, e, he, a, ha, rfl⟩
      · exact Or.inl ⟨pkg, hp, e, he, a, ha, rfl⟩
      · exact Or.inr ⟨pkg, hp, e, he, a, ha, rfl⟩

/-- Claim C2: after `derive_common_role` with removal, re-running the
same extraction over the reduced roles finds an empty common key set,
and the re-derived role is the empty list. -/
theorem claim_C2 (roles : Roles) (derivedKey : String) (fromKeys : List String)
    (minOccurrences : Nat) (hdk : derivedKey ∉ fromKeys) :
    computeCommonKeysFromRoles
        (deriveCommonRole roles derivedKey fromKeys minOccurrences true)
        fromKeys minOccurrences = [] ∧
    rget (deriveCommonRole
        (deriveCommonRole roles derivedKey fromKeys minOccurrences true)
        derivedKey fromKeys minOccurrences true) derivedKey = [] := by
  set ck := computeCommonKeysFromRoles roles fromKeys minOccurrences with hck
  have hA : ∀ rk ∈ fromKeys,
      rget (deriveCommonRole roles derivedKey fromKeys minOccurrences true) rk =
      (rget roles rk).filter (fun p => decide (policyPackageKey p ∉ ck)) := by
    intro rk hrk
    have hne : rk ≠ derivedKey := fun he => hdk (he ▸ hrk)
    simp only [deriveCommonRole, if_true]
    rw [rget_removeFold]
    simp only [hrk, if_true]
    rw [rget_dictUpdate_ne _ _ _ _ hne]
  have hseen : ∀ k ∈ seenRoleKeys
      (deriveCommonRole roles derivedKey fromKeys minOccurrences true) fromKeys,
      k ∉ ck ∧ k ∈ seenRoleKeys roles fromKeys := by
    intro k hk
    unfold seenRoleKeys at hk ⊢
    rw [List.mem_flatMap] at hk
    obtain ⟨rk, hrk, hkmem⟩ := hk
    rw [hA rk hrk, List.mem_map] at hkmem
    obtain ⟨p, hp, rfl⟩ := hkmem
    rw [List.mem_filter] at hp
    refine ⟨by simpa using hp.2, ?_⟩
    rw [List.mem_flatMap]
    exact ⟨rk, hrk, List.mem_map.mpr ⟨p, hp.1, rfl⟩⟩
  have hcount : ∀ k, k ∉ ck →
      roleKeyCount (deriveCommonRole roles derivedKey fromKeys minOccurrences true)
        fromKeys k = roleKeyCount roles fromKeys k := by
    intro k hkck
    unfold roleKeyCount
    apply List.countP_congr
    intro rk hrk
    rw [hA rk hrk]
    by_cases hmem : k ∈ (rget roles rk).map policyPackageKey
    · obtain ⟨p, hp, rfl⟩ := List.mem_map.mp hmem
      have : policyPackageKey p ∈
          ((rget roles rk).filter
            (fun q => decide (policyPackageKey q ∉ ck))).map policyPackageKey := by
        rw [List.mem_map]
        exact ⟨p, List.mem_filter.mpr ⟨hp, by simpa using hkck⟩, rfl⟩
      rw [decide_eq_true this, decide_eq_true hmem]
    · have : k ∉ ((rget roles rk).filter
          (fun q => decide (policyPackageKey q ∉ ck))).map policyPackageKey := by
        intro hx
        obtain ⟨p, hp, rfl⟩ := List.mem_map.mp hx
        exact hmem (List.mem_map.mpr ⟨p, (List.mem_filter.mp hp).1, rfl⟩)
      rw [decide_eq_false this, decide_eq_false hmem]
  have hempty : computeCommonKeysFromRoles
      (deriveCommonRole roles derivedKey fromKeys minOccurrences true)
      fromKeys minOccurrences = [] := by
    unfold computeCommonKeysFromRoles
    rw [List.filter_eq_nil_iff]
    intro k hk
    rw [List.mem_dedup] at hk
    obtain ⟨hkck, hks⟩ := hseen k hk
    have hlt : ¬ (minOccurrences ≤ roleKeyCount roles fromKeys k) := by
      intro hle
      apply hkck
      rw [hck]
      unfold computeCommonKeysFromRoles
      rw [List.mem_filter]
      exact ⟨List.mem_dedup.mpr hks, by simpa using hle⟩
    simp [hcount k hkck, hlt]
  refine ⟨hempty, ?_⟩
  have hstep : deriveCommonRole
      (deriveCommonRole roles derivedKey fromKeys minOccurrences true)
      derivedKey fromKeys minOccurrences true =
      fromKeys.foldl (fun acc rk =>
        dictUpdate acc rk ((rget acc rk).filter (fun p =>
          decide (policyPackageKey p ∉ computeCommonKeysFromRoles
            (deriveCommonRole roles derivedKey fromKeys minOccurrences true)
            fromKeys minOccurrences))))
        (dictUpdate (deriveCommonRole roles derivedKey fromKeys minOccurrences true)
          derivedKey
          (dedupPkgsByKey
            ((fromKeys.flatMap (fun rk => rget
              (deriveCommonRole roles derivedKey fromKeys minOccurrences true) rk)).filter
              (fun p => decide (policyPackageKey p ∈ computeCommonKeysFromRoles
                (deriveCommonRole roles derivedKey fromKeys minOccurrences true)
                fromKeys minOccurrences))) [])) := by
    simp only [deriveCommonRole, if_true]
  rw [hstep, rget_removeFold]
  simp only [hdk, if_false]
  rw [rget_dictUpdate_self, hempty]
  simp [List.filter_eq_nil_iff, dedupPkgsByKey]

/-- Witness for C2 at two concrete roles sharing one package, with
threshold 2 and a derived key outside the compared keys. -/
theorem claim_C2_witness :
    "common" ∉ ["A", "B"] ∧
    (computeCommonKeysFromRoles
        (deriveCommonRole rolesExample "common" ["A", "B"] 2 true)
        ["A", "B"] 2 = [] ∧
      rget (deriveCommonRole
          (deriveCommonRole rolesExample "common" ["A", "B"] 2 true)
          "common" ["A", "B"] 2 true) "common" = []) :=
  ⟨by decide, claim_C2 rolesExample "common" ["A", "B"] 2 (by decide)⟩

/-- Claim C1: the Kubernetes split conserves packages — the identity
keys of the union of the three output clusters are exactly the identity
keys of the union of the controller and worker input clusters. -/
theorem claim_C1 (fl : FeatureList) (c w : Feature)
    (hc : findFeature fl "K8S Controller" = some c)
    (hw : findFeature fl "K8S Worker" = some w) :
    ∃ cfg, buildServiceK8sConfig fl = Except.ok cfg ∧
      ∀ k, (k ∈ (cfg.service_kube_control_plane ++ cfg.service_kube_node ++
              cfg.service_k8s).map dictKeyFR ↔
            k ∈ (c.packages ++ w.packages).map packageKeyFR) := by
  have hkd : ∀ (l : List Package),
      (l.map packageCommonDict).map dictKeyFR = l.map packageKeyFR := by
    intro l
    rw [List.map_map]
    exact List.map_congr_left (fun p _ => dictKeyFR_packageCommonDict p)
  have hmain : buildServiceK8sConfig fl = Except.ok
      { service_kube_control_plane := (c.packages.filter (fun p =>
          !(decide (packageKeyFR p ∈ c.packages.map packageKeyFR) &&
            decide (packageKeyFR p ∈ w.packages.map packageKeyFR)))).map packageCommonDict,
        service_kube_node := (w.packages.filter (fun p =>
          !(decide (packageKeyFR p ∈ c.packages.map packageKeyFR) &&
            decide (packageKeyFR p ∈ w.packages.map packageKeyFR)))).map packageCommonDict,
        service_k8s := (dedupByKeyFR ((c.packages ++ w.packages).filter (fun p =>
          decide (packageKeyFR p ∈ c.packages.map packageKeyFR) &&
          decide (packageKeyFR p ∈ w.packages.map packageKeyFR))) []).map
          packageCommonDict } := by
    unfold buildServiceK8sConfig
    rw [hc, hw]
  refine ⟨_, hmain, ?_⟩
  intro k
  dsimp only
  rw [List.map_append, List.map_append, hkd, hkd, hkd, List.map_append]
  simp only [List.mem_append]
  rw [mem_map_key_dedupByKeyFR]
  simp only [List.not_mem_nil, not_false_iff, and_true]
  constructor
  · rintro ((h | h) | h)
    · obtain ⟨p, hp, rfl⟩ := List.mem_map.mp h
      exact Or.inl (List.mem_map.mpr ⟨p, (List.mem_filter.mp hp).1, rfl⟩)
    · obtain ⟨p, hp, rfl⟩ := List.mem_map.mp h
      exact Or.inr (List.mem_map.mpr ⟨p, (List.mem_filter.mp hp).1, rfl⟩)
    · obtain ⟨p, hp, rfl⟩ := List.mem_map.mp h
      obtain ⟨hpm, _⟩ := List.mem_filter.mp hp
      rcases List.mem_append.mp hpm with hmem | hmem
      · exact Or.inl (List.mem_map.mpr ⟨p, hmem, rfl⟩)
      · exact Or.inr (List.mem_map.mpr ⟨p, hmem, rfl⟩)
  · intro h
    by_cases hcom : k ∈ c.packages.map packageKeyFR ∧ k ∈ w.packages.map packageKeyFR
    · obtain ⟨p, hp, hkp⟩ := List.mem_map.mp hcom.1
      refine Or.inr (List.mem_map.mpr ⟨p, ?_, hkp⟩)
      rw [List.mem_filter, List.mem_append]
      refine ⟨Or.inl hp, ?_⟩
      simp only [Bool.and_eq_true, decide_eq_true_eq, hkp]
      exact hcom
    · rcases h with h | h
      · obtain ⟨p, hp, hkp⟩ := List.mem_map.mp h
        have hnode : k ∉ w.packages.map packageKeyFR := fun hn => hcom ⟨h, hn⟩
        refine Or.inl (Or.inl (List.mem_map.mpr ⟨p, ?_, hkp⟩))
        rw [List.mem_filter]
        refine ⟨hp, ?_⟩
        simp only [Bool.not_eq_true', Bool.and_eq_false_iff, decide_eq_false_iff_not, hkp]
        exact Or.inr hnode
      · obtain ⟨p, hp, hkp⟩ := List.mem_map.mp h
        have hctrl : k ∉ c.packages.map packageKeyFR := fun hcc => hcom ⟨hcc, h⟩
        refine Or.inl (Or.inr (List.mem_map.mpr ⟨p, ?_, hkp⟩))
        rw [List.mem_filter]
        refine ⟨hp, ?_⟩
        simp only [Bool.not_eq_true', Bool.and_eq_false_iff, decide_eq_false_iff_not, hkp]
        exact Or.inl hctrl

/-- Witness for C1 at the spec's scenario: controller = [etcd],
worker = [etcd, containerd]. -/
theorem claim_C1_witness :
    findFeature flK8sExample "K8S Controller" =
      some ⟨"K8S Controller", [pkgEtcd]⟩ ∧
    findFeature flK8sExample "K8S Worker" =
      some ⟨"K8S Worker", [pkgEtcd, pkgContainerd]⟩ ∧
    (∃ cfg, buildServiceK8sConfig flK8sExample = Except.ok cfg ∧
      ∀ k, (k ∈ (cfg.service_kube_control_plane ++ cfg.service_kube_node ++
              cfg.service_k8s).map dictKeyFR ↔
            k ∈ (([pkgEtcd] : List Package) ++
              [pkgEtcd, pkgContainerd]).map packageKeyFR)) :=
  ⟨rfl, rfl, claim_C1 flK8sExample ⟨"K8S Controller", [pkgEtcd]⟩
    ⟨"K8S Worker", [pkgEtcd, pkgContainerd]⟩ rfl rfl⟩

end CatalogPipeline
